import Mathlib

set_option maxHeartbeats 1000000

/- Shallow embedding of the BlockSTM scheduler
   (aptos-move/block-executor/src/scheduler.rs) and of the cross-shard state
   view (aptos-move/aptos-vm/src/sharded_block_executor/cross_shard_state_view.rs).

   Modelling conventions:
   * TxnIndex and Wave are u32 in the source and validation_idx is a packed
     u64; they are modelled as Nat with explicit reductions modulo 2 ^ 32 at
     exactly the points where the source performs u32 casts or wrapping
     arithmetic (release-build semantics for integer overflow).
   * Locks are elided: the embedding gives the sequential semantics of each
     operation (every try-lock succeeds, every atomic CAS or fetch_update runs
     exactly one attempt, and each public operation is a single atomic step).
   * A DependencyCondvar (an Arc holding a Mutex of DependencyStatus plus a
     Condvar) is modelled as an identifier into a store of DependencyStatus
     values; allocating a fresh Arc is modelled by the nextCv counter.
   * A failed debug_assert! or a reached unreachable! sets the sticky
     `violation` flag of the state (a debug build would abort the process
     there); the branch otherwise applies the release-build write, if any.
     Theorems about whole call traces assume the flag stays clear, i.e. that
     no protocol violation occurred.
   * The Rust PartialEq for ExecutionStatus compares incarnations and ignores
     condition variables; every comparison performed by the scheduler is
     against a condvar-free constructor, where the Lean structural equality
     coincides with it. -/

inductive DependencyStatus
  | Unresolved
  | Resolved
  | ExecutionHalted
deriving DecidableEq, Repr

inductive DependencyResult
  | Dependency (condvar : Nat)
  | Resolved
  | ExecutionHalted
deriving DecidableEq, Repr

inductive SchedulerTask
  | ExecutionTask (version : Nat × Nat) (maybe_condvar : Option Nat)
  | ValidationTask (version : Nat × Nat) (wave : Nat)
  | NoTask
  | Done
deriving DecidableEq, Repr

inductive ExecutionStatus
  | ReadyToExecute (incarnation : Nat) (maybe_condvar : Option Nat)
  | Executing (incarnation : Nat)
  | Suspended (incarnation : Nat) (condvar : Nat)
  | Executed (incarnation : Nat)
  | Committed (incarnation : Nat)
  | Aborting (incarnation : Nat)
  | ExecutionHalted
deriving DecidableEq, Repr

structure ValidationStatus where
  max_triggered_wave : Nat
  required_wave : Nat
  maybe_max_validated_wave : Option Nat
deriving DecidableEq, Repr

/- `ValidationStatus::new` -/
def ValidationStatus.new : ValidationStatus :=
  { max_triggered_wave := 0, required_wave := 0, maybe_max_validated_wave := none }

/- The SchedulerProvider trait: traversal order over transaction indices.
   `txn_index_right_after` need not be `(· + 1)`. -/
structure SchedulerProvider where
  get_first_tid : Nat
  txn_index_right_after : Nat → Nat
  txn_end_index : Nat
  all_txn_indices : List Nat

/- The shared state of `Scheduler<P>`: per-transaction execution and
   validation statuses, dependency lists, the commit state (index, wave), the
   execution index, the packed validation index, the done marker, plus the
   condvar store and the sticky protocol-violation flag of the model. -/
structure SchedulerState where
  txnExecStatus : Nat → ExecutionStatus
  txnValStatus : Nat → ValidationStatus
  txnDeps : Nat → List Nat
  condvars : Nat → DependencyStatus
  nextCv : Nat
  commitIdx : Nat
  commitWave : Nat
  executionIdx : Nat
  validationIdx : Nat
  doneMarker : Bool
  violation : Bool

/- `Scheduler::new` -/
def Scheduler.new (P : SchedulerProvider) : SchedulerState :=
  { txnExecStatus := fun _ => .ReadyToExecute 0 none
    txnValStatus := fun _ => ValidationStatus.new
    txnDeps := fun _ => []
    condvars := fun _ => .Unresolved
    nextCv := 0
    commitIdx := P.get_first_tid
    commitWave := 0
    executionIdx := P.get_first_tid
    validationIdx := P.get_first_tid % 2 ^ 32
    doneMarker := false
    violation := false }

/- Point update of one transaction's execution status. -/
def updStatus (s : SchedulerState) (t : Nat) (st : ExecutionStatus) : SchedulerState :=
  { s with txnExecStatus := fun j => if j = t then st else s.txnExecStatus j }

/- Point update of one transaction's validation status. -/
def updValStatus (s : SchedulerState) (t : Nat) (vs : ValidationStatus) : SchedulerState :=
  { s with txnValStatus := fun j => if j = t then vs else s.txnValStatus j }

/- Point update of one transaction's dependency list. -/
def updDeps (s : SchedulerState) (t : Nat) (l : List Nat) : SchedulerState :=
  { s with txnDeps := fun j => if j = t then l else s.txnDeps j }

/- Point update of one condition variable. -/
def updCondvar (s : SchedulerState) (cv : Nat) (d : DependencyStatus) : SchedulerState :=
  { s with condvars := fun j => if j = cv then d else s.condvars j }

/- `Scheduler::unpack_validation_idx` on the u64 value: the low 32 bits
   (`validation_idx & TXN_IDX_MASK`) are the index, the high 32 bits
   (`(validation_idx >> 32) as Wave`, a u32 cast) the wave. -/
def unpack_validation_idx (v : Nat) : Nat × Nat :=
  (v % 2 ^ 32, v / 2 ^ 32 % 2 ^ 32)

/- Packing `(idx as u64) | ((wave as u64) << 32)` of u32 values into a u64. -/
def pack_validation_idx (idx wave : Nat) : Nat :=
  idx % 2 ^ 32 + wave % 2 ^ 32 * 2 ^ 32

/- `Scheduler::is_executed` (read-only; its debug_assert on the index bound
   touches no state and is omitted). -/
def is_executed (s : SchedulerState) (txn_idx : Nat) (include_committed : Bool) : Option Nat :=
  match s.txnExecStatus txn_idx with
  | .Executed incarnation => some incarnation
  | .Committed incarnation => if include_committed then some incarnation else none
  | _ => none

/- `Scheduler::never_executed` -/
def never_executed (s : SchedulerState) (txn_idx : Nat) : Bool :=
  match s.txnExecStatus txn_idx with
  | .ReadyToExecute 0 _ => true
  | .Executing 0 => true
  | .Suspended 0 _ => true
  | _ => false

/- `Scheduler::try_incarnate` -/
def try_incarnate (P : SchedulerProvider) (s : SchedulerState) (txn_idx : Nat) :
    Option (Nat × Option Nat) × SchedulerState :=
  if txn_idx ≥ P.txn_end_index then (none, s)
  else
    match s.txnExecStatus txn_idx with
    | .ReadyToExecute incarnation maybe_condvar =>
        (some (incarnation, maybe_condvar), updStatus s txn_idx (.Executing incarnation))
    | _ => (none, s)

/- `Scheduler::suspend`.  The wildcard arm is unreachable! in the source. -/
def suspend (s : SchedulerState) (txn_idx : Nat) (dep_condvar : Nat) :
    Bool × SchedulerState :=
  match s.txnExecStatus txn_idx with
  | .Executing incarnation => (true, updStatus s txn_idx (.Suspended incarnation dep_condvar))
  | .ExecutionHalted => (false, s)
  | _ => (false, { s with violation := true })

/- `Scheduler::resume`.  The else arm is unreachable! in the source. -/
def resume (s : SchedulerState) (txn_idx : Nat) : SchedulerState :=
  match s.txnExecStatus txn_idx with
  | .ExecutionHalted => s
  | .Suspended incarnation dep_condvar =>
      updStatus s txn_idx (.ReadyToExecute incarnation (some dep_condvar))
  | _ => { s with violation := true }

/- `Scheduler::set_executed_status`: early return when halted, otherwise a
   debug_assert that the status is Executing(incarnation) followed by the
   (release-unconditional) write of Executed(incarnation). -/
def set_executed_status (s : SchedulerState) (txn_idx incarnation : Nat) : SchedulerState :=
  match s.txnExecStatus txn_idx with
  | .ExecutionHalted => s
  | st =>
      { updStatus s txn_idx (.Executed incarnation) with
        violation := s.violation || decide (st ≠ .Executing incarnation) }

/- `Scheduler::set_aborted_status`: early return when halted, otherwise a
   debug_assert that the status is Aborting(incarnation) followed by the
   (release-unconditional) write of ReadyToExecute(incarnation + 1, None). -/
def set_aborted_status (s : SchedulerState) (txn_idx incarnation : Nat) : SchedulerState :=
  match s.txnExecStatus txn_idx with
  | .ExecutionHalted => s
  | st =>
      { updStatus s txn_idx (.ReadyToExecute (incarnation + 1) none) with
        violation := s.violation || decide (st ≠ .Aborting incarnation) }

/- `Scheduler::try_abort` -/
def try_abort (s : SchedulerState) (txn_idx incarnation : Nat) : Bool × SchedulerState :=
  if s.txnExecStatus txn_idx = .Executed incarnation then
    (true, updStatus s txn_idx (.Aborting incarnation))
  else
    (false, s)

/- `Scheduler::finish_validation` -/
def finish_validation (s : SchedulerState) (txn_idx wave : Nat) : SchedulerState :=
  let vs := s.txnValStatus txn_idx
  updValStatus s txn_idx
    { vs with
      maybe_max_validated_wave :=
        some (match vs.maybe_max_validated_wave with
              | none => wave
              | some prev_wave => max prev_wave wave) }

/- `Scheduler::decrease_validation_idx`.  The u32 additions `wave + 1` wrap
   modulo 2 ^ 32 (release semantics); `(wave as u64 + 1) << 32` discards the
   bit shifted past position 63, which pack_validation_idx reproduces. -/
def decrease_validation_idx (P : SchedulerProvider) (s : SchedulerState) (target_idx : Nat) :
    Option Nat × SchedulerState :=
  if target_idx ≥ P.txn_end_index then (none, s)
  else
    let txn_idx := (unpack_validation_idx s.validationIdx).1
    let wave := (unpack_validation_idx s.validationIdx).2
    if txn_idx > target_idx then
      let vs := s.txnValStatus target_idx
      let s1 := updValStatus s target_idx
        { vs with max_triggered_wave := max vs.max_triggered_wave ((wave + 1) % 2 ^ 32) }
      let s2 := { s1 with validationIdx := pack_validation_idx target_idx (wave + 1) }
      (some ((wave + 1) % 2 ^ 32), s2)
    else
      (none, s)

/- `Scheduler::try_validate_next_version`: one compare_exchange attempt on the
   packed validation index, then an is_executed check on success. -/
def try_validate_next_version (P : SchedulerProvider) (s : SchedulerState)
    (idx_to_validate wave : Nat) : Option ((Nat × Nat) × Nat) × SchedulerState :=
  if s.validationIdx = pack_validation_idx idx_to_validate wave then
    let s1 := { s with
      validationIdx := pack_validation_idx (P.txn_index_right_after idx_to_validate) wave }
    ((is_executed s1 idx_to_validate false).map
        (fun incarnation => ((idx_to_validate, incarnation), wave)), s1)
  else
    (none, s)

/- `Scheduler::try_execute_next_version`: fetch_update of execution_idx to its
   successor, then bound check and try_incarnate on the previous value. -/
def try_execute_next_version (P : SchedulerProvider) (s : SchedulerState) :
    Option ((Nat × Nat) × Option Nat) × SchedulerState :=
  let idx_to_execute := s.executionIdx
  let s1 := { s with executionIdx := P.txn_index_right_after s.executionIdx }
  if idx_to_execute ≥ P.txn_end_index then (none, s1)
  else
    match try_incarnate P s1 idx_to_execute with
    | (some (incarnation, maybe_condvar), s2) =>
        (some ((idx_to_execute, incarnation), maybe_condvar), s2)
    | (none, s2) => (none, s2)

/- One iteration of the loop in `Scheduler::next_task`.  `Ret task` means the
   iteration returns `task` to the caller, `Continue` means the loop repeats.
   The `committing` flag only controls the CPU relaxation hint, which has no
   observable effect on scheduler state. -/
inductive IterStep
  | Ret (task : SchedulerTask)
  | Continue
deriving DecidableEq, Repr

/- `prefer_validate` as computed by `Scheduler::next_task` from a loaded
   validation index, execution index and the never_executed check. -/
def prefer_validate (P : SchedulerProvider) (s : SchedulerState) : Bool :=
  decide ((unpack_validation_idx s.validationIdx).1
      < min s.executionIdx P.txn_end_index)
    && !never_executed s (unpack_validation_idx s.validationIdx).1

def next_task_iter (P : SchedulerProvider) (s : SchedulerState) (committing : Bool) :
    IterStep × SchedulerState :=
  if s.doneMarker then (.Ret .Done, s)
  else
    let idx_to_validate := (unpack_validation_idx s.validationIdx).1
    let wave := (unpack_validation_idx s.validationIdx).2
    let idx_to_execute := s.executionIdx
    if !prefer_validate P s && idx_to_execute ≥ P.txn_end_index then
      -- Check `done` again to avoid commit delay due to a race; the
      -- relaxation hint for !committing is a no-op on the state.
      if s.doneMarker then (.Ret .Done, s) else (.Ret .NoTask, s)
    else if prefer_validate P s then
      match try_validate_next_version P s idx_to_validate wave with
      | (some (version_to_validate, w), s1) =>
          (.Ret (.ValidationTask version_to_validate w), s1)
      | (none, s1) => (.Continue, s1)
    else
      match try_execute_next_version P s with
      | (some (version_to_execute, maybe_condvar), s1) =>
          (.Ret (.ExecutionTask version_to_execute maybe_condvar), s1)
      | (none, s1) => (.Continue, s1)

/- `Scheduler::wait_for_dependency`: allocate a fresh condvar, check whether
   the dependency is already executed (committed included), otherwise suspend
   and, if suspension succeeded, append txn_idx to the dependency list. -/
def wait_for_dependency (s : SchedulerState) (txn_idx dep_txn_idx : Nat) :
    DependencyResult × SchedulerState :=
  let dep_condvar := s.nextCv
  let s0 := updCondvar { s with nextCv := s.nextCv + 1 } dep_condvar .Unresolved
  if (is_executed s0 dep_txn_idx true).isSome then
    (.Resolved, s0)
  else
    match suspend s0 txn_idx dep_condvar with
    | (false, s1) => (.ExecutionHalted, s1)
    | (true, s1) => (.Dependency dep_condvar, updDeps s1 dep_txn_idx (s1.txnDeps dep_txn_idx ++ [txn_idx]))

/- `Scheduler::finish_execution` -/
def finish_execution (P : SchedulerProvider) (s : SchedulerState)
    (txn_idx incarnation : Nat) (revalidate_suffix : Bool) :
    SchedulerTask × SchedulerState :=
  let s1 := set_executed_status s txn_idx incarnation
  let txn_deps := s1.txnDeps txn_idx
  let s2 := updDeps s1 txn_idx []
  let s3 := txn_deps.foldl resume s2
  let s4 := match txn_deps.min? with
    | some execution_target_idx =>
        { s3 with executionIdx := min s3.executionIdx execution_target_idx }
    | none => s3
  let cur_val_idx := (unpack_validation_idx s4.validationIdx).1
  let cur_wave := (unpack_validation_idx s4.validationIdx).2
  if cur_val_idx > txn_idx then
    let dec := if revalidate_suffix
      then decrease_validation_idx P s4 (P.txn_index_right_after txn_idx)
      else (none, s4)
    let cur_wave1 := dec.1.getD cur_wave
    let s5 := dec.2
    let s6 := updValStatus s5 txn_idx { s5.txnValStatus txn_idx with required_wave := cur_wave1 }
    (.ValidationTask (txn_idx, incarnation) cur_wave1, s6)
  else
    (.NoTask, s4)

/- `Scheduler::finish_abort` -/
def finish_abort (P : SchedulerProvider) (s : SchedulerState) (txn_idx incarnation : Nat) :
    SchedulerTask × SchedulerState :=
  let s1 := set_aborted_status s txn_idx incarnation
  let s2 := (decrease_validation_idx P s1 (P.txn_index_right_after txn_idx)).2
  if s2.executionIdx > txn_idx then
    match try_incarnate P s2 txn_idx with
    | (some (new_incarnation, maybe_condvar), s3) =>
        (.ExecutionTask (txn_idx, new_incarnation) maybe_condvar, s3)
    | (none, s3) => (.NoTask, s3)
  else
    (.NoTask, s2)

/- `Scheduler::try_commit` -/
def try_commit (P : SchedulerProvider) (s : SchedulerState) :
    Option Nat × SchedulerState :=
  let commit_idx := s.commitIdx
  let validation_status := s.txnValStatus commit_idx
  match s.txnExecStatus commit_idx with
  | .Executed incarnation =>
      let commit_wave := max s.commitWave validation_status.max_triggered_wave
      match validation_status.maybe_max_validated_wave with
      | some validated_wave =>
          if validated_wave ≥ max commit_wave validation_status.required_wave then
            let new_commit_idx := P.txn_index_right_after commit_idx
            (some commit_idx,
             { updStatus s commit_idx (.Committed incarnation) with
               commitIdx := new_commit_idx
               commitWave := commit_wave
               doneMarker := if new_commit_idx ≥ P.txn_end_index then true else s.doneMarker })
          else
            (none, { s with commitWave := commit_wave })
      | none => (none, { s with commitWave := commit_wave })
  | _ => (none, s)

/- `Scheduler::resolve_condvar` -/
def resolve_condvar (s : SchedulerState) (txn_idx : Nat) : SchedulerState :=
  let s1 := match s.txnExecStatus txn_idx with
    | .Suspended _ condvar => updCondvar s condvar .ExecutionHalted
    | .ReadyToExecute _ (some condvar) => updCondvar s condvar .ExecutionHalted
    | _ => s
  updStatus s1 txn_idx .ExecutionHalted

/- `Scheduler::halt`: the caller that flips done_marker from false to true
   resolves the condvar of every transaction index. -/
def halt (P : SchedulerProvider) (s : SchedulerState) : SchedulerState :=
  if s.doneMarker then s
  else P.all_txn_indices.foldl resolve_condvar { s with doneMarker := true }

/- The public mutating entry points of the Scheduler, as trace alphabet
   (next_task appears through single loop iterations). -/
inductive SchedOp
  | nextTaskStep (committing : Bool)
  | waitForDep (txn_idx dep_txn_idx : Nat)
  | finishValidationOp (txn_idx wave : Nat)
  | finishExecutionOp (txn_idx incarnation : Nat) (revalidate_suffix : Bool)
  | finishAbortOp (txn_idx incarnation : Nat)
  | tryCommitOp
  | tryAbortCall (txn_idx incarnation : Nat)
  | resolveCondvarOp (txn_idx : Nat)
  | haltCall
deriving DecidableEq, Repr

def applyOp (P : SchedulerProvider) (s : SchedulerState) : SchedOp → SchedulerState
  | .nextTaskStep committing => (next_task_iter P s committing).2
  | .waitForDep t d => (wait_for_dependency s t d).2
  | .finishValidationOp t w => finish_validation s t w
  | .finishExecutionOp t i r => (finish_execution P s t i r).2
  | .finishAbortOp t i => (finish_abort P s t i).2
  | .tryCommitOp => (try_commit P s).2
  | .tryAbortCall t i => (try_abort s t i).2
  | .resolveCondvarOp t => resolve_condvar s t
  | .haltCall => halt P s

def applyTrace (P : SchedulerProvider) (s : SchedulerState) : List SchedOp → SchedulerState
  | [] => s
  | op :: ops => applyTrace P (applyOp P s op) ops

/- Number of try_abort calls for version (txn_idx, incarnation) in a trace
   that return true at their point of the run. -/
def abortTrueCount (P : SchedulerProvider) (txn_idx incarnation : Nat) :
    SchedulerState → List SchedOp → Nat
  | _, [] => 0
  | s, op :: ops =>
      (if op = SchedOp.tryAbortCall txn_idx incarnation ∧ (try_abort s txn_idx incarnation).1 = true
       then 1 else 0)
      + abortTrueCount P txn_idx incarnation (applyOp P s op) ops

/- Rank of an execution status: weakly increasing along every valid scheduler
   operation, strictly separating Executed(i) from Aborting(i). -/
def statusRank : ExecutionStatus → WithTop Nat
  | .ReadyToExecute incarnation _ => (4 * incarnation : Nat)
  | .Executing incarnation => (4 * incarnation : Nat)
  | .Suspended incarnation _ => (4 * incarnation : Nat)
  | .Executed incarnation => (4 * incarnation + 1 : Nat)
  | .Aborting incarnation => (4 * incarnation + 2 : Nat)
  | .Committed incarnation => (4 * incarnation + 2 : Nat)
  | .ExecutionHalted => ⊤

/- The ranks of all execution statuses of `s` are below those of `s1`. -/
def RankMono (s s1 : SchedulerState) : Prop :=
  ∀ j, statusRank (s.txnExecStatus j) ≤ statusRank (s1.txnExecStatus j)

/- CrossShardValueStatus of cross_shard_state_view.rs.  StateValue is opaque
   to the view and is modelled by Nat; a slot holds Option Nat because a state
   value may be absent. -/
inductive CrossShardValueStatus
  | Ready (value : Option Nat)
  | Waiting
deriving DecidableEq, Repr

/- CrossShardStateView: the HashMap of cross-shard slots is a finite map
   (none encodes absence of the key from the map), the base view an
   anyhow::Result-returning lookup, with StateKey modelled by Nat. -/
structure CrossShardStateView where
  cross_shard_data : Nat → Option CrossShardValueStatus
  base_view : Nat → Except String (Option Nat)

/- `CrossShardStateView::new`: every key of the construction set is
   pre-populated with a Waiting slot. -/
def CrossShardStateView.new (cross_shard_keys : List Nat)
    (base : Nat → Except String (Option Nat)) : CrossShardStateView :=
  { cross_shard_data := fun k => if k ∈ cross_shard_keys then some .Waiting else none
    base_view := base }

/- `CrossShardStateView::set_value` (slot notification elided: setting a slot
   to Ready is the observable effect). -/
def CrossShardStateView.set_value (v : CrossShardStateView) (state_key : Nat)
    (state_value : Option Nat) : CrossShardStateView :=
  match v.cross_shard_data state_key with
  | some _ =>
      { v with cross_shard_data := fun k =>
          if k = state_key then some (.Ready state_value) else v.cross_shard_data k }
  | none => v

/- `CrossShardStateView::get_state_value`.  A `none` result models the call
   blocking on a Waiting slot (the condvar wait loop); `some r` is the value
   returned once the call completes. -/
def CrossShardStateView.get_state_value (v : CrossShardStateView) (state_key : Nat) :
    Option (Except String (Option Nat)) :=
  match v.cross_shard_data state_key with
  | some (.Ready value) => some (.ok value)
  | some .Waiting => none
  | none => some (v.base_view state_key)

/- Apply a list of set_value calls to a view. -/
def applySets (v : CrossShardStateView) : List (Nat × Option Nat) → CrossShardStateView
  | [] => v
  | (k, val) :: rest => applySets (v.set_value k val) rest

/- Concrete providers and states used by witnesses and counterexamples. -/

def Pex : SchedulerProvider :=
  { get_first_tid := 0, txn_index_right_after := (· + 1), txn_end_index := 2,
    all_txn_indices := [0, 1] }

def PexBig : SchedulerProvider :=
  { get_first_tid := 0, txn_index_right_after := (· + 1), txn_end_index := 10,
    all_txn_indices := [0, 1, 2, 3, 4, 5, 6, 7, 8, 9] }

/- Transaction 0 already executed (incarnation 3) and validated at wave 0. -/
def sExec : SchedulerState :=
  { Scheduler.new Pex with
    txnExecStatus := fun i => if i = 0 then .Executed 3 else .ReadyToExecute 0 none
    txnValStatus := fun _ => { max_triggered_wave := 0, required_wave := 0,
                               maybe_max_validated_wave := some 0 } }

/- Execution index at the end of the block, nothing executed yet. -/
def sNT : SchedulerState :=
  { Scheduler.new Pex with executionIdx := 2 }

/- Transaction 0 halted while validation_idx unpacks to (1, 0). -/
def sC2 : SchedulerState :=
  { Scheduler.new Pex with
    txnExecStatus := fun i => if i = 0 then .ExecutionHalted else .ReadyToExecute 0 none
    executionIdx := 2
    validationIdx := 1 }

/- The packed validation index holds index 5 at wave 2 ^ 32 - 1. -/
def sC3 : SchedulerState :=
  { Scheduler.new PexBig with validationIdx := 5 + (2 ^ 32 - 1) * 2 ^ 32 }

/- ------------------------------------------------------------------ -/
/- Theorems                                                           -/
/- ------------------------------------------------------------------ -/

/-- Claim C10: for every txn_idx at or past the provider's end index,
try_incarnate returns None with the state untouched, and consequently the
optimization path of finish_abort never returns an ExecutionTask for an index
at or past end. -/
theorem try_incarnate_out_of_bounds (P : SchedulerProvider) (s : SchedulerState)
    (txn_idx incarnation : Nat) :
    (txn_idx ≥ P.txn_end_index → try_incarnate P s txn_idx = (none, s))
    ∧ (∀ version maybe_condvar,
        (finish_abort P s txn_idx incarnation).1
          = SchedulerTask.ExecutionTask version maybe_condvar →
        version.1 = txn_idx ∧ txn_idx < P.txn_end_index) := by
  constructor
  · intro h
    simp [try_incarnate, h]
  · intro version maybe_condvar h
    simp only [finish_abort] at h
    by_cases hb : txn_idx < P.txn_end_index
    · refine ⟨?_, hb⟩
      split at h
      · split at h
        · simp only [Prod.mk.injEq, SchedulerTask.ExecutionTask.injEq] at h
          rw [← h.1]
        · simp at h
      · simp at h
    · push_neg at hb
      have hnone : ∀ s1 : SchedulerState, try_incarnate P s1 txn_idx = (none, s1) :=
        fun s1 => by simp [try_incarnate, hb]
      simp only [hnone] at h
      split at h <;> simp at h

/-- Witness for C10 at a concrete input: index 2 is at the end of the
two-transaction block, so try_incarnate refuses it. -/
theorem try_incarnate_out_of_bounds_witness :
    try_incarnate Pex (Scheduler.new Pex) 2 = (none, Scheduler.new Pex) :=
  (try_incarnate_out_of_bounds Pex (Scheduler.new Pex) 2 0).1 (by decide)

/-- Claim C5: try_validate_next_version CASes the packed validation_idx from
(i, wave) to (next i, wave); on CAS success it returns Some ((i, inc), wave)
iff the execution status of i is Executed inc (a Committed status yields
None), and on CAS failure it returns None leaving the whole state unchanged. -/
theorem try_validate_next_version_spec (P : SchedulerProvider) (s : SchedulerState)
    (i w : Nat) :
    (s.validationIdx = pack_validation_idx i w →
      (try_validate_next_version P s i w).2
        = { s with validationIdx := pack_validation_idx (P.txn_index_right_after i) w }
      ∧ (∀ inc, (try_validate_next_version P s i w).1 = some ((i, inc), w)
            ↔ s.txnExecStatus i = ExecutionStatus.Executed inc)
      ∧ (∀ inc, s.txnExecStatus i = ExecutionStatus.Committed inc →
            (try_validate_next_version P s i w).1 = none))
    ∧ (s.validationIdx ≠ pack_validation_idx i w →
        try_validate_next_version P s i w = (none, s)) := by
  constructor
  · intro h
    refine ⟨by simp [try_validate_next_version, h], ?_, ?_⟩
    · intro inc
      unfold try_validate_next_version
      rw [if_pos h]
      cases hst : s.txnExecStatus i <;>
        simp_all [is_executed]
    · intro inc hst
      unfold try_validate_next_version
      rw [if_pos h]
      simp [is_executed, hst]
  · intro h
    simp [try_validate_next_version, h]

/-- Witness for C5: with validation_idx packed as (0, 0) and transaction 0 in
status Executed 3, the CAS succeeds and the validation task for version (0, 3)
at wave 0 is returned. -/
theorem try_validate_next_version_witness :
    (try_validate_next_version Pex sExec 0 0).1 = some ((0, 3), 0) :=
  (((try_validate_next_version_spec Pex sExec 0 0).1 (by decide)).2.1 3).mpr (by decide)

/-- Claim C6: in one iteration of the next_task loop, a set done marker yields
Done; otherwise validation is preferred exactly when the loaded validation
index is below min(execution index, end) and the transaction there is not
never-executed (status ReadyToExecute(0), Executing(0) or Suspended(0)); and
when validation is not preferred and the execution index has reached end, the
iteration returns NoTask (the re-check of done sees the same unset marker). -/
theorem next_task_iter_spec (P : SchedulerProvider) (s : SchedulerState)
    (committing : Bool) :
    (s.doneMarker = true → next_task_iter P s committing = (IterStep.Ret SchedulerTask.Done, s))
    ∧ (prefer_validate P s = true
        ↔ ((unpack_validation_idx s.validationIdx).1 < min s.executionIdx P.txn_end_index
           ∧ never_executed s (unpack_validation_idx s.validationIdx).1 = false))
    ∧ (∀ j, never_executed s j = true
        ↔ ((∃ cv, s.txnExecStatus j = ExecutionStatus.ReadyToExecute 0 cv)
           ∨ s.txnExecStatus j = ExecutionStatus.Executing 0
           ∨ (∃ cv, s.txnExecStatus j = ExecutionStatus.Suspended 0 cv)))
    ∧ (s.doneMarker = false → prefer_validate P s = false →
        s.executionIdx ≥ P.txn_end_index →
        next_task_iter P s committing = (IterStep.Ret SchedulerTask.NoTask, s)) := by
  refine ⟨?_, ?_, ?_, ?_⟩
  · intro h
    simp [next_task_iter, h]
  · unfold prefer_validate
    cases hne : never_executed s (unpack_validation_idx s.validationIdx).1 <;>
      simp [hne]
  · intro j
    unfold never_executed
    cases hst : s.txnExecStatus j with
    | ReadyToExecute inc cv => cases inc <;> simp
    | Executing inc => cases inc <;> simp
    | Suspended inc cv => cases inc <;> simp
    | _ => simp
  · intro hd hp he
    unfold next_task_iter
    rw [if_neg (by simp [hd]), if_pos (by simp [hp, he]), if_neg (by simp [hd])]

/-- Witness for C6: execution index at end, transaction 0 never executed, so
validation is not preferred and the iteration returns NoTask. -/
theorem next_task_iter_witness :
    next_task_iter Pex sNT false = (IterStep.Ret SchedulerTask.NoTask, sNT) :=
  (next_task_iter_spec Pex sNT false).2.2.2 (by decide) (by decide) (by decide)

/- Frame lemmas: which state components each helper leaves untouched. -/

theorem resume_validationIdx (s : SchedulerState) (j : Nat) :
    (resume s j).validationIdx = s.validationIdx := by
  unfold resume
  split <;> rfl

theorem foldl_resume_validationIdx (l : List Nat) (s : SchedulerState) :
    (l.foldl resume s).validationIdx = s.validationIdx := by
  induction l generalizing s with
  | nil => rfl
  | cons a l ih => rw [List.foldl_cons, ih, resume_validationIdx]

theorem resume_halted (s : SchedulerState) (t j : Nat)
    (h : s.txnExecStatus t = ExecutionStatus.ExecutionHalted) :
    (resume s j).txnExecStatus t = ExecutionStatus.ExecutionHalted := by
  by_cases hj : j = t
  · subst hj
    simp [resume, h]
  · have ht : t ≠ j := fun h1 => hj h1.symm
    unfold resume
    split
    · exact h
    · simp [updStatus, ht, h]
    · exact h

theorem foldl_resume_halted (l : List Nat) (s : SchedulerState) (t : Nat)
    (h : s.txnExecStatus t = ExecutionStatus.ExecutionHalted) :
    (l.foldl resume s).txnExecStatus t = ExecutionStatus.ExecutionHalted := by
  induction l generalizing s with
  | nil => exact h
  | cons a l ih => exact ih _ (resume_halted _ _ _ h)

theorem decrease_validation_idx_txnExecStatus (P : SchedulerProvider)
    (s : SchedulerState) (target_idx : Nat) :
    (decrease_validation_idx P s target_idx).2.txnExecStatus = s.txnExecStatus := by
  simp only [decrease_validation_idx]
  split
  · rfl
  · split <;> rfl

theorem unpack_pack (a b : Nat) :
    unpack_validation_idx (pack_validation_idx a b) = (a % 2 ^ 32, b % 2 ^ 32) := by
  unfold unpack_validation_idx pack_validation_idx
  have hp : (2 : Nat) ^ 32 = 4294967296 := by norm_num
  rw [hp]
  simp only [Prod.mk.injEq]
  omega

/-- Claim C1: in try_commit, if the transaction at the commit index has status
Executed(inc), the commit wave is first raised to max(commit wave,
max_triggered_wave), and the transaction is committed (status Committed(inc),
commit index advanced, done set when the new commit index reaches end, and
Some(index) returned) if and only if maybe_max_validated_wave is Some w with
w at least max(updated commit wave, required_wave); in every other case
try_commit returns None and changes no execution status. -/
theorem try_commit_spec (P : SchedulerProvider) (s : SchedulerState) :
    (∀ inc, s.txnExecStatus s.commitIdx = ExecutionStatus.Executed inc →
      ((try_commit P s).2.commitWave
          = max s.commitWave (s.txnValStatus s.commitIdx).max_triggered_wave)
      ∧ ((∃ w, (s.txnValStatus s.commitIdx).maybe_max_validated_wave = some w
            ∧ w ≥ max (max s.commitWave (s.txnValStatus s.commitIdx).max_triggered_wave)
                      (s.txnValStatus s.commitIdx).required_wave) →
          try_commit P s
            = (some s.commitIdx,
               { updStatus s s.commitIdx (ExecutionStatus.Committed inc) with
                 commitIdx := P.txn_index_right_after s.commitIdx
                 commitWave := max s.commitWave (s.txnValStatus s.commitIdx).max_triggered_wave
                 doneMarker := if P.txn_index_right_after s.commitIdx ≥ P.txn_end_index
                               then true else s.doneMarker }))
      ∧ (¬ (∃ w, (s.txnValStatus s.commitIdx).maybe_max_validated_wave = some w
            ∧ w ≥ max (max s.commitWave (s.txnValStatus s.commitIdx).max_triggered_wave)
                      (s.txnValStatus s.commitIdx).required_wave) →
          (try_commit P s).1 = none
          ∧ (try_commit P s).2.txnExecStatus = s.txnExecStatus))
    ∧ ((∀ inc, s.txnExecStatus s.commitIdx ≠ ExecutionStatus.Executed inc) →
        try_commit P s = (none, s)) := by
  constructor
  · intro inc h
    refine ⟨?_, ?_, ?_⟩
    · simp only [try_commit]
      rw [h]
      dsimp only
      cases hm : (s.txnValStatus s.commitIdx).maybe_max_validated_wave with
      | none => rfl
      | some w =>
        dsimp only
        by_cases hge : w ≥ max (max s.commitWave (s.txnValStatus s.commitIdx).max_triggered_wave)
            (s.txnValStatus s.commitIdx).required_wave
        · rw [if_pos hge]
        · rw [if_neg hge]
    · rintro ⟨w, hw, hge⟩
      simp only [try_commit]
      rw [h]
      dsimp only
      rw [hw]
      dsimp only
      rw [if_pos hge]
    · intro hn
      constructor
      · simp only [try_commit]
        rw [h]
        dsimp only
        cases hm : (s.txnValStatus s.commitIdx).maybe_max_validated_wave with
        | none => rfl
        | some w =>
          dsimp only
          rw [if_neg (fun hge => hn ⟨w, hm, hge⟩)]
      · simp only [try_commit]
        rw [h]
        dsimp only
        cases hm : (s.txnValStatus s.commitIdx).maybe_max_validated_wave with
        | none => rfl
        | some w =>
          dsimp only
          rw [if_neg (fun hge => hn ⟨w, hm, hge⟩)]
  · intro hne
    simp only [try_commit]

/-- Witness for C1: transaction 0 is Executed(3) with validated wave 0 meeting
the bound max(0, 0), so try_commit commits it and returns index 0. -/
theorem try_commit_spec_witness : (try_commit Pex sExec).1 = some 0 := by
  have h := ((try_commit_spec Pex sExec).1 3 (by decide)).2.1 ⟨0, by decide, by decide⟩
  rw [h]
  rfl

/-- Claim C7: wait_for_dependency returns Resolved without touching statuses
or dependency lists when the dependency is Executed or Committed; returns
ExecutionHalted leaving them unchanged when the caller's status is
ExecutionHalted; and otherwise, for a caller in status Executing(inc), creates
a fresh Unresolved handle, suspends the caller on it, appends the caller to
the dependency's list and returns Dependency(handle). -/
theorem wait_for_dependency_spec (s : SchedulerState) (txn_idx dep_txn_idx : Nat) :
    ((∃ inc, s.txnExecStatus dep_txn_idx = ExecutionStatus.Executed inc
        ∨ s.txnExecStatus dep_txn_idx = ExecutionStatus.Committed inc) →
      (wait_for_dependency s txn_idx dep_txn_idx).1 = DependencyResult.Resolved
      ∧ (wait_for_dependency s txn_idx dep_txn_idx).2.txnDeps = s.txnDeps
      ∧ (wait_for_dependency s txn_idx dep_txn_idx).2.txnExecStatus = s.txnExecStatus)
    ∧ (¬ (∃ inc, s.txnExecStatus dep_txn_idx = ExecutionStatus.Executed inc
        ∨ s.txnExecStatus dep_txn_idx = ExecutionStatus.Committed inc) →
      s.txnExecStatus txn_idx = ExecutionStatus.ExecutionHalted →
      (wait_for_dependency s txn_idx dep_txn_idx).1 = DependencyResult.ExecutionHalted
      ∧ (wait_for_dependency s txn_idx dep_txn_idx).2.txnDeps = s.txnDeps
      ∧ (wait_for_dependency s txn_idx dep_txn_idx).2.txnExecStatus = s.txnExecStatus)
    ∧ (∀ inc, ¬ (∃ inc1, s.txnExecStatus dep_txn_idx = ExecutionStatus.Executed inc1
        ∨ s.txnExecStatus dep_txn_idx = ExecutionStatus.Committed inc1) →
      s.txnExecStatus txn_idx = ExecutionStatus.Executing inc →
      (wait_for_dependency s txn_idx dep_txn_idx).1 = DependencyResult.Dependency s.nextCv
      ∧ (wait_for_dependency s txn_idx dep_txn_idx).2.txnExecStatus txn_idx
          = ExecutionStatus.Suspended inc s.nextCv
      ∧ (∀ j, j ≠ txn_idx →
          (wait_for_dependency s txn_idx dep_txn_idx).2.txnExecStatus j = s.txnExecStatus j)
      ∧ (wait_for_dependency s txn_idx dep_txn_idx).2.condvars s.nextCv
          = DependencyStatus.Unresolved
      ∧ (wait_for_dependency s txn_idx dep_txn_idx).2.nextCv = s.nextCv + 1
      ∧ (wait_for_dependency s txn_idx dep_txn_idx).2.txnDeps dep_txn_idx
          = s.txnDeps dep_txn_idx ++ [txn_idx]
      ∧ (∀ j, j ≠ dep_txn_idx →
          (wait_for_dependency s txn_idx dep_txn_idx).2.txnDeps j = s.txnDeps j)) := by
  refine ⟨?_, ?_, ?_⟩
  · rintro ⟨inc, hdep⟩
    have hsome : (is_executed
        (updCondvar { s with nextCv := s.nextCv + 1 } s.nextCv DependencyStatus.Unresolved)
        dep_txn_idx true).isSome = true := by
      rcases hdep with hdep | hdep <;>
        simp [is_executed, show (updCondvar { s with nextCv := s.nextCv + 1 } s.nextCv
          DependencyStatus.Unresolved).txnExecStatus dep_txn_idx
          = s.txnExecStatus dep_txn_idx from rfl, hdep]
    simp only [wait_for_dependency]
    rw [if_pos hsome]
    exact ⟨rfl, rfl, rfl⟩
  · intro hne hh
    have hnone : ¬ (is_executed
        (updCondvar { s with nextCv := s.nextCv + 1 } s.nextCv DependencyStatus.Unresolved)
        dep_txn_idx true).isSome = true := by
      cases hst : s.txnExecStatus dep_txn_idx
      case Executed inc2 => exact absurd ⟨inc2, Or.inl hst⟩ hne
      case Committed inc2 => exact absurd ⟨inc2, Or.inr hst⟩ hne
      all_goals
        simp [is_executed, show (updCondvar { s with nextCv := s.nextCv + 1 } s.nextCv
          DependencyStatus.Unresolved).txnExecStatus dep_txn_idx
          = s.txnExecStatus dep_txn_idx from rfl, hst]
    simp only [wait_for_dependency]
    rw [if_neg hnone]
    have hsusp : suspend
        (updCondvar { s with nextCv := s.nextCv + 1 } s.nextCv DependencyStatus.Unresolved)
        txn_idx s.nextCv
        = (false, updCondvar { s with nextCv := s.nextCv + 1 } s.nextCv
            DependencyStatus.Unresolved) := by
      unfold suspend
      rw [show (updCondvar { s with nextCv := s.nextCv + 1 } s.nextCv
          DependencyStatus.Unresolved).txnExecStatus txn_idx
          = ExecutionStatus.ExecutionHalted from hh]
    rw [hsusp]
    exact ⟨rfl, rfl, rfl⟩
  · intro inc hne hex
    have hnone : ¬ (is_executed
        (updCondvar { s with nextCv := s.nextCv + 1 } s.nextCv DependencyStatus.Unresolved)
        dep_txn_idx true).isSome = true := by
      cases hst : s.txnExecStatus dep_txn_idx
      case Executed inc2 => exact absurd ⟨inc2, Or.inl hst⟩ hne
      case Committed inc2 => exact absurd ⟨inc2, Or.inr hst⟩ hne
      all_goals
        simp [is_executed, show (updCondvar { s with nextCv := s.nextCv + 1 } s.nextCv
          DependencyStatus.Unresolved).txnExecStatus dep_txn_idx
          = s.txnExecStatus dep_txn_idx from rfl, hst]
    simp only [wait_for_dependency]
    rw [if_neg hnone]
    have hsusp : suspend
        (updCondvar { s with nextCv := s.nextCv + 1 } s.nextCv DependencyStatus.Unresolved)
        txn_idx s.nextCv
        = (true, updStatus
            (updCondvar { s with nextCv := s.nextCv + 1 } s.nextCv DependencyStatus.Unresolved)
            txn_idx (ExecutionStatus.Suspended inc s.nextCv)) := by
      unfold suspend
      rw [show (updCondvar { s with nextCv := s.nextCv + 1 } s.nextCv
          DependencyStatus.Unresolved).txnExecStatus txn_idx
          = ExecutionStatus.Executing inc from hex]
    rw [hsusp]
    refine ⟨rfl, by simp [updDeps, updStatus, updCondvar], ?_, ?_, rfl, ?_, ?_⟩
    · intro j hj
      simp [updDeps, updStatus, updCondvar, hj]
    · simp [updDeps, updStatus, updCondvar]
    · simp [updDeps, updStatus, updCondvar]
    · intro j hj
      simp [updDeps, updStatus, updCondvar, hj]

/-- Witness for C7: transaction 0 is Executed(3), so a dependency wait of
transaction 1 on it resolves immediately. -/
theorem wait_for_dependency_witness :
    (wait_for_dependency sExec 1 0).1 = DependencyResult.Resolved :=
  ((wait_for_dependency_spec sExec 1 0).1 ⟨3, Or.inl (by decide)⟩).1

theorem updDeps_validationIdx (s : SchedulerState) (t : Nat) (l : List Nat) :
    (updDeps s t l).validationIdx = s.validationIdx := rfl

theorem updValStatus_txnExecStatus (s : SchedulerState) (t : Nat) (vs : ValidationStatus) :
    (updValStatus s t vs).txnExecStatus = s.txnExecStatus := rfl

theorem finish_execution_halted_spec (P : SchedulerProvider) (s : SchedulerState)
    (txn_idx incarnation : Nat) (revalidate_suffix : Bool)
    (h : s.txnExecStatus txn_idx = ExecutionStatus.ExecutionHalted) :
    set_executed_status s txn_idx incarnation = s
    ∧ (finish_execution P s txn_idx incarnation revalidate_suffix).2.txnExecStatus txn_idx
        = ExecutionStatus.ExecutionHalted
    ∧ ((unpack_validation_idx s.validationIdx).1 ≤ txn_idx →
        (finish_execution P s txn_idx incarnation revalidate_suffix).1 = SchedulerTask.NoTask)
    ∧ (txn_idx < (unpack_validation_idx s.validationIdx).1 →
        ∃ w, (finish_execution P s txn_idx incarnation revalidate_suffix).1
          = SchedulerTask.ValidationTask (txn_idx, incarnation) w) := by
  have hse : set_executed_status s txn_idx incarnation = s := by
    unfold set_executed_status
    rw [h]
  have hs3 : ((s.txnDeps txn_idx).foldl resume (updDeps s txn_idx [])).txnExecStatus txn_idx
      = ExecutionStatus.ExecutionHalted := foldl_resume_halted _ _ _ h
  refine ⟨hse, ?_, ?_, ?_⟩
  · simp only [finish_execution, hse, foldl_resume_validationIdx, updDeps_validationIdx]
    cases hmin : (s.txnDeps txn_idx).min? <;>
      simp only [hmin, foldl_resume_validationIdx, updDeps_validationIdx] <;> split <;>
      simp only [updValStatus_txnExecStatus, decrease_validation_idx_txnExecStatus] <;>
      first
        | exact hs3
        | (split <;> simp only [updValStatus_txnExecStatus,
            decrease_validation_idx_txnExecStatus] <;> exact hs3)
  · intro hle
    simp only [finish_execution, hse, foldl_resume_validationIdx, updDeps_validationIdx]
    cases hmin : (s.txnDeps txn_idx).min? <;>
      simp only [hmin, foldl_resume_validationIdx, updDeps_validationIdx] <;>
      rw [if_neg (by omega)]
  · intro hlt
    simp only [finish_execution, hse, foldl_resume_validationIdx, updDeps_validationIdx]
    cases hmin : (s.txnDeps txn_idx).min? <;>
      simp only [hmin, foldl_resume_validationIdx, updDeps_validationIdx] <;>
      rw [if_pos (by omega)] <;> exact ⟨_, rfl⟩

/-- Counterexample to claim C2 as stated: transaction 0 is already
ExecutionHalted, yet finish_execution returns a ValidationTask for (0, 0)
rather than NoTask, because the loaded validation index 1 exceeds index 0. -/
theorem finish_execution_halted_counterexample :
    sC2.txnExecStatus 0 = ExecutionStatus.ExecutionHalted
    ∧ (finish_execution Pex sC2 0 0 false).1 = SchedulerTask.ValidationTask (0, 0) 0
    ∧ (finish_execution Pex sC2 0 0 false).1 ≠ SchedulerTask.NoTask :=
  ⟨by decide, by decide, by decide⟩

/-- Witness for the amended C2 at a concrete input: on the halted transaction
0 with validation index 1, finish_execution returns a ValidationTask. -/
theorem finish_execution_halted_witness :
    ∃ w, (finish_execution Pex sC2 0 0 false).1 = SchedulerTask.ValidationTask (0, 0) w :=
  (finish_execution_halted_spec Pex sC2 0 0 false (by decide)).2.2.2 (by decide)

/-- Claim C3 (amended): the wave stored in the high 32 bits of validation_idx
never decreases as long as the current wave is below 2 ^ 32 - 1:
decrease_validation_idx stores wave + 1 and try_validate_next_version's CAS
preserves the wave exactly.  (At wave 2 ^ 32 - 1 the u32 increment of
decrease_validation_idx wraps the stored wave to 0.) -/
theorem validation_wave_monotone (P : SchedulerProvider) (s : SchedulerState)
    (target_idx i w : Nat) :
    ((unpack_validation_idx s.validationIdx).2 < 2 ^ 32 - 1 →
      (unpack_validation_idx s.validationIdx).2
        ≤ (unpack_validation_idx (decrease_validation_idx P s target_idx).2.validationIdx).2)
    ∧ (unpack_validation_idx (try_validate_next_version P s i w).2.validationIdx).2
        = (unpack_validation_idx s.validationIdx).2 := by
  have hp32 : (2 : Nat) ^ 32 = 4294967296 := by norm_num
  constructor
  · intro hw
    simp only [decrease_validation_idx]
    split
    · exact le_refl _
    · split
      · dsimp only
        rw [unpack_pack]
        dsimp only
        unfold unpack_validation_idx at hw ⊢
        dsimp only at hw ⊢
        rw [hp32] at hw ⊢
        omega
      · exact le_refl _
  · simp only [try_validate_next_version]
    split
    next hcas =>
      dsimp only
      rw [unpack_pack, hcas, unpack_pack]
    next => rfl

/-- Counterexample to claim C3 as stated: at wave 2 ^ 32 - 1 (packed
validation index (5, 2 ^ 32 - 1)), decrease_validation_idx toward index 1
stores wave 0, strictly smaller than the wave previously held. -/
theorem validation_wave_wrap_counterexample :
    (unpack_validation_idx (decrease_validation_idx PexBig sC3 1).2.validationIdx).2
      < (unpack_validation_idx sC3.validationIdx).2 := by decide

/-- Witness for the amended C3: from packed validation index (1, 0), a
decrease toward index 0 stores wave 1, not smaller than 0. -/
theorem validation_wave_monotone_witness :
    (unpack_validation_idx sC2.validationIdx).2
      ≤ (unpack_validation_idx (decrease_validation_idx Pex sC2 0).2.validationIdx).2 :=
  (validation_wave_monotone Pex sC2 0 0 0).1 (by decide)

/- Lemmas about the cross-shard view. -/

theorem set_value_base_view (v : CrossShardStateView) (k : Nat) (val : Option Nat) :
    (v.set_value k val).base_view = v.base_view := by
  unfold CrossShardStateView.set_value
  split <;> rfl

theorem applySets_base_view (sets : List (Nat × Option Nat)) (v : CrossShardStateView) :
    (applySets v sets).base_view = v.base_view := by
  induction sets generalizing v with
  | nil => rfl
  | cons p rest ih =>
    obtain ⟨k, val⟩ := p
    rw [applySets, ih, set_value_base_view]

theorem set_value_data_none (v : CrossShardStateView) (key k : Nat) (val : Option Nat)
    (h : v.cross_shard_data key = none) :
    (v.set_value k val).cross_shard_data key = none := by
  unfold CrossShardStateView.set_value
  split
  next st hsome =>
    by_cases hk : key = k
    · subst hk
      rw [h] at hsome
      exact absurd hsome (by simp)
    · simp [hk, h]
  next => exact h

theorem applySets_data_none (sets : List (Nat × Option Nat)) (v : CrossShardStateView)
    (key : Nat) (h : v.cross_shard_data key = none) :
    (applySets v sets).cross_shard_data key = none := by
  induction sets generalizing v with
  | nil => exact h
  | cons p rest ih =>
    obtain ⟨k, val⟩ := p
    rw [applySets]
    exact ih _ (set_value_data_none _ _ _ _ h)

/-- Claim C9: after any sequence of set_value calls on a view constructed
with key set K, a key outside K has set_value as a no-op and get_state_value
delegating to the base view, while a key of K whose slot is Ready(w) has
get_state_value returning Ok w. -/
theorem cross_shard_state_view_spec (keys : List Nat)
    (base : Nat → Except String (Option Nat)) (sets : List (Nat × Option Nat))
    (key : Nat) (val w : Option Nat) :
    (key ∉ keys →
      (applySets (CrossShardStateView.new keys base) sets).set_value key val
          = applySets (CrossShardStateView.new keys base) sets
      ∧ (applySets (CrossShardStateView.new keys base) sets).get_state_value key
          = some (base key))
    ∧ (key ∈ keys →
        (applySets (CrossShardStateView.new keys base) sets).cross_shard_data key
            = some (CrossShardValueStatus.Ready w) →
        (applySets (CrossShardStateView.new keys base) sets).get_state_value key
          = some (Except.ok w)) := by
  constructor
  · intro hk
    have hnone : (applySets (CrossShardStateView.new keys base) sets).cross_shard_data key
        = none := applySets_data_none _ _ _ (by simp [CrossShardStateView.new, hk])
    constructor
    · unfold CrossShardStateView.set_value
      rw [hnone]
    · unfold CrossShardStateView.get_state_value
      rw [hnone, applySets_base_view]
      rfl
  · intro _ hready
    unfold CrossShardStateView.get_state_value
    rw [hready]

/-- Witness for C9: with K = [1] and set_value(1, Some 5) applied, a read of
key 2 delegates to the base view and a read of key 1 returns Ok (Some 5). -/
theorem cross_shard_state_view_witness :
    (applySets (CrossShardStateView.new [1] (fun _ => Except.ok none))
        [(1, some 5)]).get_state_value 2 = some (Except.ok none)
    ∧ (applySets (CrossShardStateView.new [1] (fun _ => Except.ok none))
        [(1, some 5)]).get_state_value 1 = some (Except.ok (some 5)) :=
  ⟨((cross_shard_state_view_spec [1] (fun _ => Except.ok none) [(1, some 5)] 2 none
      none).1 (by decide)).2,
   (cross_shard_state_view_spec [1] (fun _ => Except.ok none) [(1, some 5)] 1 none
      (some 5)).2 (by decide) (by decide)⟩

/- Lemmas about halt / resolve_condvar. -/

theorem resolve_condvar_doneMarker (s : SchedulerState) (t : Nat) :
    (resolve_condvar s t).doneMarker = s.doneMarker := by
  simp only [resolve_condvar]
  split <;> rfl

theorem foldl_resolve_doneMarker (l : List Nat) (s : SchedulerState) :
    (l.foldl resolve_condvar s).doneMarker = s.doneMarker := by
  induction l generalizing s with
  | nil => rfl
  | cons a l ih => rw [List.foldl_cons, ih, resolve_condvar_doneMarker]

theorem resolve_condvar_halted_self (s : SchedulerState) (t : Nat) :
    (resolve_condvar s t).txnExecStatus t = ExecutionStatus.ExecutionHalted := by
  simp only [resolve_condvar]
  split <;> simp [updStatus]

theorem resolve_condvar_halted_mono (s : SchedulerState) (t j : Nat)
    (h : s.txnExecStatus t = ExecutionStatus.ExecutionHalted) :
    (resolve_condvar s j).txnExecStatus t = ExecutionStatus.ExecutionHalted := by
  by_cases hj : j = t
  · subst hj
    exact resolve_condvar_halted_self s j
  · have ht : t ≠ j := fun h1 => hj h1.symm
    simp only [resolve_condvar]
    split <;> simp [updStatus, updCondvar, ht, h]

theorem foldl_resolve_halted_mono (l : List Nat) (s : SchedulerState) (t : Nat)
    (h : s.txnExecStatus t = ExecutionStatus.ExecutionHalted) :
    (l.foldl resolve_condvar s).txnExecStatus t = ExecutionStatus.ExecutionHalted := by
  induction l generalizing s with
  | nil => exact h
  | cons a l ih => exact ih _ (resolve_condvar_halted_mono _ _ _ h)

theorem foldl_resolve_halted (l : List Nat) (s : SchedulerState) (t : Nat) (ht : t ∈ l) :
    (l.foldl resolve_condvar s).txnExecStatus t = ExecutionStatus.ExecutionHalted := by
  induction l generalizing s with
  | nil => cases ht
  | cons a l ih =>
    rw [List.foldl_cons]
    by_cases ha : a = t
    · exact foldl_resolve_halted_mono _ _ _ (ha ▸ resolve_condvar_halted_self s a)
    · rcases List.mem_cons.mp ht with h1 | h1
      · exact absurd h1.symm ha
      · exact ih _ h1

theorem resolve_condvar_cv_mono (s : SchedulerState) (j c : Nat)
    (h : s.condvars c = DependencyStatus.ExecutionHalted) :
    (resolve_condvar s j).condvars c = DependencyStatus.ExecutionHalted := by
  simp only [resolve_condvar]
  split <;> simp [updStatus, updCondvar, h]

theorem foldl_resolve_cv_mono (l : List Nat) (s : SchedulerState) (c : Nat)
    (h : s.condvars c = DependencyStatus.ExecutionHalted) :
    (l.foldl resolve_condvar s).condvars c = DependencyStatus.ExecutionHalted := by
  induction l generalizing s with
  | nil => exact h
  | cons a l ih => exact ih _ (resolve_condvar_cv_mono _ _ _ h)

theorem resolve_condvar_sets_cv (s : SchedulerState) (i inc cv : Nat)
    (hst : s.txnExecStatus i = ExecutionStatus.Suspended inc cv
        ∨ s.txnExecStatus i = ExecutionStatus.ReadyToExecute inc (some cv)) :
    (resolve_condvar s i).condvars cv = DependencyStatus.ExecutionHalted := by
  rcases hst with hst | hst <;>
    · simp only [resolve_condvar]
      rw [hst]
      simp [updStatus, updCondvar]

theorem resolve_condvar_status_other (s : SchedulerState) (i a : Nat) (hia : i ≠ a) :
    (resolve_condvar s a).txnExecStatus i = s.txnExecStatus i := by
  simp only [resolve_condvar]
  split <;> simp [updStatus, updCondvar, hia]

theorem foldl_resolve_sets_cv (l : List Nat) (s : SchedulerState) (i inc cv : Nat)
    (hi : i ∈ l)
    (hst : s.txnExecStatus i = ExecutionStatus.Suspended inc cv
        ∨ s.txnExecStatus i = ExecutionStatus.ReadyToExecute inc (some cv)) :
    (l.foldl resolve_condvar s).condvars cv = DependencyStatus.ExecutionHalted := by
  induction l generalizing s with
  | nil => cases hi
  | cons a l ih =>
    rw [List.foldl_cons]
    by_cases ha : a = i
    · exact foldl_resolve_cv_mono _ _ _ (resolve_condvar_sets_cv _ _ _ _ (ha ▸ hst))
    · rcases List.mem_cons.mp hi with h1 | h1
      · exact absurd h1.symm ha
      · exact ih _ h1
          (by rw [resolve_condvar_status_other s i a (fun h2 => ha h2.symm)]; exact hst)

theorem halt_doneMarker (P : SchedulerProvider) (s : SchedulerState) :
    (halt P s).doneMarker = true := by
  unfold halt
  split
  next h => exact h
  next h =>
    rw [foldl_resolve_doneMarker]

theorem halt_halt (P : SchedulerProvider) (s : SchedulerState) :
    halt P (halt P s) = halt P s :=
  calc halt P (halt P s)
      = if (halt P s).doneMarker then halt P s
        else P.all_txn_indices.foldl resolve_condvar { halt P s with doneMarker := true } := rfl
    _ = halt P s := by rw [halt_doneMarker]; exact if_pos rfl

/-- Claim C8: halt is idempotent.  Only the call that flips the done marker
from false to true resolves condition variables (every suspended or
ready-with-handle transaction's handle becomes ExecutionHalted) and sets every
transaction's status to ExecutionHalted; a halt on an already-done scheduler
is the identity, and a sequence of n >= 1 halt calls equals one halt. -/
theorem halt_idempotent_spec (P : SchedulerProvider) (s : SchedulerState) (n : Nat) :
    (s.doneMarker = true → halt P s = s)
    ∧ (s.doneMarker = false →
        halt P s = P.all_txn_indices.foldl resolve_condvar { s with doneMarker := true }
        ∧ (∀ i ∈ P.all_txn_indices,
            (halt P s).txnExecStatus i = ExecutionStatus.ExecutionHalted)
        ∧ (∀ i ∈ P.all_txn_indices, ∀ inc cv,
            (s.txnExecStatus i = ExecutionStatus.Suspended inc cv
             ∨ s.txnExecStatus i = ExecutionStatus.ReadyToExecute inc (some cv)) →
            (halt P s).condvars cv = DependencyStatus.ExecutionHalted))
    ∧ halt P (halt P s) = halt P s
    ∧ (1 ≤ n → Nat.iterate (halt P) n s = halt P s) := by
  refine ⟨?_, ?_, halt_halt P s, ?_⟩
  · intro h
    simp [halt, h]
  · intro h
    have heq : halt P s
        = P.all_txn_indices.foldl resolve_condvar { s with doneMarker := true } := by
      simp [halt, h]
    refine ⟨heq, ?_, ?_⟩
    · intro i hi
      rw [heq]
      exact foldl_resolve_halted _ _ _ hi
    · intro i hi inc cv hst
      rw [heq]
      exact foldl_resolve_sets_cv _ _ _ _ _ hi hst
  · intro hn
    induction n with
    | zero => omega
    | succ m ih =>
      cases m with
      | zero => rfl
      | succ k =>
        rw [Function.iterate_succ_apply', ih (by omega)]
        exact halt_halt P s

/-- Witness for C8: two consecutive halts on a fresh scheduler equal one. -/
theorem halt_idempotent_witness :
    Nat.iterate (halt Pex) 2 (Scheduler.new Pex) = halt Pex (Scheduler.new Pex) :=
  (halt_idempotent_spec Pex (Scheduler.new Pex) 2).2.2.2 (by decide)

/- Violation-flag lemmas: no scheduler operation ever clears the sticky
   violation flag, and most leave it untouched. -/

theorem try_incarnate_violation (P : SchedulerProvider) (s : SchedulerState) (t : Nat) :
    (try_incarnate P s t).2.violation = s.violation := by
  unfold try_incarnate
  split
  · rfl
  · split <;> rfl

theorem suspend_violation_mono (s : SchedulerState) (t cv : Nat)
    (h : s.violation = true) : (suspend s t cv).2.violation = true := by
  unfold suspend
  split <;> simp [updStatus, h]

theorem resume_violation_mono (s : SchedulerState) (j : Nat)
    (h : s.violation = true) : (resume s j).violation = true := by
  unfold resume
  split <;> simp [updStatus, h]

theorem foldl_resume_violation_mono (l : List Nat) (s : SchedulerState)
    (h : s.violation = true) : (l.foldl resume s).violation = true := by
  induction l generalizing s with
  | nil => exact h
  | cons a l ih => exact ih _ (resume_violation_mono _ _ h)

theorem set_executed_violation_mono (s : SchedulerState) (t i : Nat)
    (h : s.violation = true) : (set_executed_status s t i).violation = true := by
  unfold set_executed_status
  split <;> simp [updStatus, h]

theorem set_aborted_violation_mono (s : SchedulerState) (t i : Nat)
    (h : s.violation = true) : (set_aborted_status s t i).violation = true := by
  unfold set_aborted_status
  split <;> simp [updStatus, h]

theorem try_abort_violation (s : SchedulerState) (t i : Nat) :
    (try_abort s t i).2.violation = s.violation := by
  unfold try_abort
  split <;> rfl

theorem finish_validation_violation (s : SchedulerState) (t w : Nat) :
    (finish_validation s t w).violation = s.violation := rfl

theorem decrease_violation (P : SchedulerProvider) (s : SchedulerState) (tgt : Nat) :
    (decrease_validation_idx P s tgt).2.violation = s.violation := by
  simp only [decrease_validation_idx]
  split
  · rfl
  · split <;> rfl

theorem try_validate_violation (P : SchedulerProvider) (s : SchedulerState) (i w : Nat) :
    (try_validate_next_version P s i w).2.violation = s.violation := by
  unfold try_validate_next_version
  split <;> rfl

theorem try_execute_violation (P : SchedulerProvider) (s : SchedulerState) :
    (try_execute_next_version P s).2.violation = s.violation := by
  simp only [try_execute_next_version]
  split
  · rfl
  · split
    all_goals
      next heq =>
        have h2 := congrArg (fun p => p.2.violation) heq
        simp only at h2
        rw [← h2, try_incarnate_violation]

theorem next_task_iter_violation (P : SchedulerProvider) (s : SchedulerState) (c : Bool) :
    (next_task_iter P s c).2.violation = s.violation := by
  simp only [next_task_iter]
  repeat' split
  all_goals try rfl
  all_goals
    rename_i heq
    have h2 := congrArg (fun p => p.2.violation) heq
    simp only at h2
    rw [← h2]
    first
      | rw [try_validate_violation]
      | rw [try_execute_violation]

theorem wait_violation_mono (s : SchedulerState) (t d : Nat)
    (h : s.violation = true) : (wait_for_dependency s t d).2.violation = true := by
  simp only [wait_for_dependency]
  split
  · exact h
  · split
    all_goals
      rename_i s1 heq
      have h2 := congrArg (fun p => p.2.violation) heq
      simp only at h2
      show s1.violation = true
      rw [← h2]
      exact suspend_violation_mono _ _ _ h

theorem finish_execution_violation_mono (P : SchedulerProvider) (s : SchedulerState)
    (t i : Nat) (r : Bool) (h : s.violation = true) :
    (finish_execution P s t i r).2.violation = true := by
  have h1 := set_executed_violation_mono s t i h
  have h3 : (List.foldl resume (updDeps (set_executed_status s t i) t [])
      ((set_executed_status s t i).txnDeps t)).violation = true :=
    foldl_resume_violation_mono _ _ h1
  cases r <;>
    simp only [finish_execution] <;>
    cases hmin : ((set_executed_status s t i).txnDeps t).min? <;>
      simp only [hmin] <;> split <;>
      simp_all [decrease_violation, updValStatus]

theorem finish_abort_violation_mono (P : SchedulerProvider) (s : SchedulerState)
    (t i : Nat) (h : s.violation = true) :
    (finish_abort P s t i).2.violation = true := by
  have h1 := set_aborted_violation_mono s t i h
  have h2 : (decrease_validation_idx P (set_aborted_status s t i)
      (P.txn_index_right_after t)).2.violation = true := by
    rw [decrease_violation]
    exact h1
  simp only [finish_abort]
  split
  · split
    all_goals
      next heq =>
        have h4 := congrArg (fun p => p.2.violation) heq
        simp only at h4
        rw [← h4, try_incarnate_violation]
        exact h2
  · exact h2

theorem try_commit_violation (P : SchedulerProvider) (s : SchedulerState) :
    (try_commit P s).2.violation = s.violation := by
  simp only [try_commit]
  split
  · split
    · split <;> rfl
    · rfl
  · rfl

theorem resolve_condvar_violation (s : SchedulerState) (t : Nat) :
    (resolve_condvar s t).violation = s.violation := by
  simp only [resolve_condvar]
  split <;> rfl

theorem foldl_resolve_violation (l : List Nat) (s : SchedulerState) :
    (l.foldl resolve_condvar s).violation = s.violation := by
  induction l generalizing s with
  | nil => rfl
  | cons a l ih => rw [List.foldl_cons, ih, resolve_condvar_violation]

theorem halt_violation (P : SchedulerProvider) (s : SchedulerState) :
    (halt P s).violation = s.violation := by
  unfold halt
  split
  · rfl
  · rw [foldl_resolve_violation]

theorem applyOp_violation_mono (P : SchedulerProvider) (s : SchedulerState)
    (op : SchedOp) (h : s.violation = true) : (applyOp P s op).violation = true := by
  cases op <;> simp only [applyOp]
  · rw [next_task_iter_violation]; exact h
  · exact wait_violation_mono _ _ _ h
  · rw [finish_validation_violation]; exact h
  · exact finish_execution_violation_mono _ _ _ _ _ h
  · exact finish_abort_violation_mono _ _ _ _ h
  · rw [try_commit_violation]; exact h
  · rw [try_abort_violation]; exact h
  · rw [resolve_condvar_violation]; exact h
  · rw [halt_violation]; exact h

theorem applyTrace_violation_mono (P : SchedulerProvider) (ops : List SchedOp)
    (s : SchedulerState) (h : s.violation = true) :
    (applyTrace P s ops).violation = true := by
  induction ops generalizing s with
  | nil => exact h
  | cons op rest ih => exact ih _ (applyOp_violation_mono _ _ _ h)

/- Rank monotonicity: every protocol-violation-free scheduler operation
   weakly increases the rank of every transaction's execution status. -/

theorem rankMono_refl (s : SchedulerState) : RankMono s s := fun _ => le_refl _

theorem rankMono_trans {s1 s2 s3 : SchedulerState}
    (h1 : RankMono s1 s2) (h2 : RankMono s2 s3) : RankMono s1 s3 :=
  fun j => le_trans (h1 j) (h2 j)

theorem rankMono_of_same (s s1 : SchedulerState)
    (h : s1.txnExecStatus = s.txnExecStatus) : RankMono s s1 := by
  intro j
  rw [h]

theorem rankMono_updStatus (s : SchedulerState) (t : Nat) (st : ExecutionStatus)
    (h : statusRank (s.txnExecStatus t) ≤ statusRank st) :
    RankMono s (updStatus s t st) := by
  intro j
  by_cases hj : j = t
  · subst hj
    simpa [updStatus] using h
  · simp [updStatus, hj]

theorem rankMono_try_incarnate (P : SchedulerProvider) (s : SchedulerState) (t : Nat) :
    RankMono s (try_incarnate P s t).2 := by
  unfold try_incarnate
  split
  · exact rankMono_refl s
  · split
    next inc cv heq => exact rankMono_updStatus s t _ (by rw [heq]; exact le_refl _)
    next => exact rankMono_refl s

theorem rankMono_suspend (s : SchedulerState) (t cv : Nat) :
    RankMono s (suspend s t cv).2 := by
  unfold suspend
  split
  next inc heq => exact rankMono_updStatus s t _ (by rw [heq]; exact le_refl _)
  next => exact rankMono_refl s
  next => exact rankMono_of_same s _ rfl

theorem rankMono_resume (s : SchedulerState) (j : Nat) :
    RankMono s (resume s j) := by
  unfold resume
  split
  · exact rankMono_refl s
  next inc cv heq => exact rankMono_updStatus s j _ (by rw [heq]; exact le_refl _)
  next => exact rankMono_of_same s _ rfl

theorem rankMono_foldl_resume (l : List Nat) (s : SchedulerState) :
    RankMono s (l.foldl resume s) := by
  induction l generalizing s with
  | nil => exact rankMono_refl s
  | cons a l ih => exact rankMono_trans (rankMono_resume s a) (ih _)

theorem rankMono_set_executed (s : SchedulerState) (t i : Nat)
    (hv : (set_executed_status s t i).violation = false) :
    RankMono s (set_executed_status s t i) := by
  cases heq : s.txnExecStatus t
  all_goals unfold set_executed_status at hv ⊢
  all_goals rw [heq] at hv ⊢
  case ExecutionHalted => exact rankMono_refl s
  case Executing j =>
    simp only [updStatus] at hv
    have hj : j = i := by
      by_contra hji
      simp [hji] at hv
    subst hj
    refine rankMono_trans (rankMono_updStatus s t (ExecutionStatus.Executed j) ?_)
      (rankMono_of_same _ _ rfl)
    rw [heq]
    simp only [statusRank]
    exact Nat.cast_le.mpr (by omega)
  all_goals simp at hv

theorem rankMono_set_aborted (s : SchedulerState) (t i : Nat)
    (hv : (set_aborted_status s t i).violation = false) :
    RankMono s (set_aborted_status s t i) := by
  cases heq : s.txnExecStatus t
  all_goals unfold set_aborted_status at hv ⊢
  all_goals rw [heq] at hv ⊢
  case ExecutionHalted => exact rankMono_refl s
  case Aborting j =>
    simp only [updStatus] at hv
    have hj : j = i := by
      by_contra hji
      simp [hji] at hv
    subst hj
    refine rankMono_trans
      (rankMono_updStatus s t (ExecutionStatus.ReadyToExecute (j + 1) none) ?_)
      (rankMono_of_same _ _ rfl)
    rw [heq]
    simp only [statusRank]
    exact Nat.cast_le.mpr (by omega)
  all_goals simp at hv

theorem rankMono_try_abort (s : SchedulerState) (t i : Nat) :
    RankMono s (try_abort s t i).2 := by
  unfold try_abort
  split
  next heq =>
    refine rankMono_updStatus s t _ ?_
    rw [heq]
    simp only [statusRank]
    exact Nat.cast_le.mpr (by omega)
  next => exact rankMono_refl s

theorem rankMono_try_commit (P : SchedulerProvider) (s : SchedulerState) :
    RankMono s (try_commit P s).2 := by
  simp only [try_commit]
  split
  next inc heq =>
    split
    · split
      · refine rankMono_trans (rankMono_updStatus s s.commitIdx
            (ExecutionStatus.Committed inc) ?_) (rankMono_of_same _ _ rfl)
        rw [heq]
        simp only [statusRank]
        exact Nat.cast_le.mpr (by omega)
      · exact rankMono_of_same _ _ rfl
    · exact rankMono_of_same _ _ rfl
  next => exact rankMono_refl s

theorem try_validate_txnExecStatus (P : SchedulerProvider) (s : SchedulerState)
    (i w : Nat) :
    (try_validate_next_version P s i w).2.txnExecStatus = s.txnExecStatus := by
  unfold try_validate_next_version
  split <;> rfl

theorem rankMono_try_execute (P : SchedulerProvider) (s : SchedulerState) :
    RankMono s (try_execute_next_version P s).2 := by
  simp only [try_execute_next_version]
  split
  · exact rankMono_of_same _ _ rfl
  · split
    all_goals
      rename_i s2 heq
      have h2 := congrArg Prod.snd heq
      simp only at h2
      exact rankMono_trans (rankMono_of_same s _ rfl) (h2 ▸ rankMono_try_incarnate P _ _)

theorem rankMono_next_task_iter (P : SchedulerProvider) (s : SchedulerState) (c : Bool) :
    RankMono s (next_task_iter P s c).2 := by
  simp only [next_task_iter]
  repeat' split
  all_goals try exact rankMono_refl s
  all_goals
    rename_i s2 heq
    have h2 := congrArg Prod.snd heq
    simp only at h2
    first
      | exact h2 ▸ rankMono_of_same s _ (try_validate_txnExecStatus P s _ _)
      | exact h2 ▸ rankMono_try_execute P s

theorem rankMono_wait (s : SchedulerState) (t d : Nat) :
    RankMono s (wait_for_dependency s t d).2 := by
  simp only [wait_for_dependency]
  split
  · exact rankMono_of_same s _ rfl
  · split
    all_goals
      rename_i s1 heq
      have h2 := congrArg Prod.snd heq
      simp only at h2
      have base : RankMono s (suspend (updCondvar { s with nextCv := s.nextCv + 1 }
          s.nextCv DependencyStatus.Unresolved) t s.nextCv).2 :=
        rankMono_trans (rankMono_of_same s _ rfl) (rankMono_suspend _ t s.nextCv)
      first
        | exact h2 ▸ base
        | exact rankMono_trans (h2 ▸ base) (rankMono_of_same _ _ rfl)

theorem finish_execution_violation_se (P : SchedulerProvider) (s : SchedulerState)
    (t i : Nat) (r : Bool) (h1 : (set_executed_status s t i).violation = true) :
    (finish_execution P s t i r).2.violation = true := by
  have h3 : (List.foldl resume (updDeps (set_executed_status s t i) t [])
      ((set_executed_status s t i).txnDeps t)).violation = true :=
    foldl_resume_violation_mono _ _ h1
  cases r <;>
    simp only [finish_execution] <;>
    cases hmin : ((set_executed_status s t i).txnDeps t).min? <;>
      simp only [hmin] <;> split <;>
      simp_all [decrease_violation, updValStatus]

theorem rankMono_finish_execution (P : SchedulerProvider) (s : SchedulerState)
    (t i : Nat) (r : Bool) (hv : (finish_execution P s t i r).2.violation = false) :
    RankMono s (finish_execution P s t i r).2 := by
  have hv1 : (set_executed_status s t i).violation = false := by
    cases hb : (set_executed_status s t i).violation
    · rfl
    · rw [finish_execution_violation_se P s t i r hb] at hv
      cases hv
  refine rankMono_trans (rankMono_set_executed s t i hv1) ?_
  have base : RankMono (set_executed_status s t i)
      (List.foldl resume (updDeps (set_executed_status s t i) t [])
        ((set_executed_status s t i).txnDeps t)) :=
    rankMono_trans (rankMono_of_same _ _ rfl) (rankMono_foldl_resume _ _)
  cases r <;>
    simp only [finish_execution] <;>
    cases hmin : ((set_executed_status s t i).txnDeps t).min? <;>
      simp only [hmin] <;> split <;>
      exact rankMono_trans base (rankMono_of_same _ _ (by
        first
          | rfl
          | simp [updValStatus, decrease_validation_idx_txnExecStatus]))

theorem finish_abort_violation_sa (P : SchedulerProvider) (s : SchedulerState)
    (t i : Nat) (h1 : (set_aborted_status s t i).violation = true) :
    (finish_abort P s t i).2.violation = true := by
  have h2 : (decrease_validation_idx P (set_aborted_status s t i)
      (P.txn_index_right_after t)).2.violation = true := by
    rw [decrease_violation]
    exact h1
  simp only [finish_abort]
  split
  · split
    all_goals
      rename_i s3 heq
      have h4 := congrArg (fun p => p.2.violation) heq
      simp only at h4
      rw [← h4, try_incarnate_violation]
      exact h2
  · exact h2

theorem rankMono_finish_abort (P : SchedulerProvider) (s : SchedulerState)
    (t i : Nat) (hv : (finish_abort P s t i).2.violation = false) :
    RankMono s (finish_abort P s t i).2 := by
  have hv1 : (set_aborted_status s t i).violation = false := by
    cases hb : (set_aborted_status s t i).violation
    · rfl
    · rw [finish_abort_violation_sa P s t i hb] at hv
      cases hv
  refine rankMono_trans (rankMono_set_aborted s t i hv1) ?_
  simp only [finish_abort]
  split
  · split
    all_goals
      rename_i s3 heq
      have h2 := congrArg Prod.snd heq
      simp only at h2
      exact rankMono_trans
        (rankMono_of_same _ _ (decrease_validation_idx_txnExecStatus P _ _))
        (h2 ▸ rankMono_try_incarnate P _ _)
  · exact rankMono_of_same _ _ (decrease_validation_idx_txnExecStatus P _ _)

theorem rankMono_resolve (s : SchedulerState) (j : Nat) :
    RankMono s (resolve_condvar s j) := by
  intro k
  by_cases hk : k = j
  · subst hk
    rw [resolve_condvar_halted_self]
    exact le_top
  · rw [resolve_condvar_status_other s k j hk]

theorem rankMono_foldl_resolve (l : List Nat) (s : SchedulerState) :
    RankMono s (l.foldl resolve_condvar s) := by
  induction l generalizing s with
  | nil => exact rankMono_refl s
  | cons a l ih => exact rankMono_trans (rankMono_resolve s a) (ih _)

theorem rankMono_halt (P : SchedulerProvider) (s : SchedulerState) :
    RankMono s (halt P s) := by
  unfold halt
  split
  · exact rankMono_refl s
  · exact rankMono_trans (rankMono_of_same s _ rfl) (rankMono_foldl_resolve _ _)

theorem applyOp_rankMono (P : SchedulerProvider) (s : SchedulerState) (op : SchedOp)
    (hv : (applyOp P s op).violation = false) : RankMono s (applyOp P s op) := by
  cases op <;> simp only [applyOp] at hv ⊢
  · exact rankMono_next_task_iter P s _
  · exact rankMono_wait s _ _
  · exact rankMono_of_same s _ rfl
  · exact rankMono_finish_execution P s _ _ _ hv
  · exact rankMono_finish_abort P s _ _ hv
  · exact rankMono_try_commit P s
  · exact rankMono_try_abort s _ _
  · exact rankMono_resolve s _
  · exact rankMono_halt P s

/- The at-most-one-abort counting argument. -/

theorem statusRank_high_ne_executed (st : ExecutionStatus) (inc : Nat)
    (h : ((4 * inc + 2 : Nat) : WithTop Nat) ≤ statusRank st) :
    st ≠ ExecutionStatus.Executed inc := by
  intro he
  subst he
  simp only [statusRank] at h
  have h2 := Nat.cast_le.mp h
  omega

theorem try_abort_true_iff (s : SchedulerState) (t i : Nat) :
    (try_abort s t i).1 = true ↔ s.txnExecStatus t = ExecutionStatus.Executed i := by
  unfold try_abort
  split
  next h => simp [h]
  next h => simp [h]

theorem abortTrueCount_zero (P : SchedulerProvider) (t inc : Nat) (ops : List SchedOp)
    (s : SchedulerState)
    (hrank : ((4 * inc + 2 : Nat) : WithTop Nat) ≤ statusRank (s.txnExecStatus t))
    (hv : (applyTrace P s ops).violation = false) :
    abortTrueCount P t inc s ops = 0 := by
  induction ops generalizing s with
  | nil => rfl
  | cons op rest ih =>
    rw [applyTrace] at hv
    have hvs : (applyOp P s op).violation = false := by
      cases hb : (applyOp P s op).violation
      · rfl
      · rw [applyTrace_violation_mono P rest _ hb] at hv
        cases hv
    have hnext := le_trans hrank (applyOp_rankMono P s op hvs t)
    have hno : ¬ (op = SchedOp.tryAbortCall t inc ∧ (try_abort s t inc).1 = true) := by
      rintro ⟨-, habort⟩
      exact statusRank_high_ne_executed _ _ hrank ((try_abort_true_iff s t inc).mp habort)
    rw [abortTrueCount, if_neg hno, ih _ hnext hv]

theorem abortTrueCount_le_one (P : SchedulerProvider) (t inc : Nat) (ops : List SchedOp)
    (s : SchedulerState) (hv : (applyTrace P s ops).violation = false) :
    abortTrueCount P t inc s ops ≤ 1 := by
  induction ops generalizing s with
  | nil => exact Nat.zero_le 1
  | cons op rest ih =>
    rw [applyTrace] at hv
    rw [abortTrueCount]
    by_cases hsucc : op = SchedOp.tryAbortCall t inc ∧ (try_abort s t inc).1 = true
    · rw [if_pos hsucc]
      have hst : s.txnExecStatus t = ExecutionStatus.Executed inc :=
        (try_abort_true_iff s t inc).mp hsucc.2
      have hafter : (applyOp P s op).txnExecStatus t = ExecutionStatus.Aborting inc := by
        rw [hsucc.1]
        simp [applyOp, try_abort, hst, updStatus]
      have h0 : abortTrueCount P t inc (applyOp P s op) rest = 0 := by
        refine abortTrueCount_zero P t inc rest _ ?_ hv
        rw [hafter]
        simp only [statusRank]
        exact le_refl _
      omega
    · rw [if_neg hsucc]
      have h := ih _ hv
      omega

/-- Claim C4: try_abort(t, inc) returns true iff t's execution status is
exactly Executed(inc), in which case the status becomes Aborting(inc) and
nothing else changes; in every other status it returns false and leaves the
state unchanged; and along any protocol-violation-free trace of scheduler
operations, try_abort returns true at most once per version (t, inc). -/
theorem try_abort_spec (P : SchedulerProvider) (s : SchedulerState)
    (txn_idx incarnation : Nat) (ops : List SchedOp) :
    ((try_abort s txn_idx incarnation).1 = true
      ↔ s.txnExecStatus txn_idx = ExecutionStatus.Executed incarnation)
    ∧ (s.txnExecStatus txn_idx = ExecutionStatus.Executed incarnation →
        (try_abort s txn_idx incarnation).2
          = updStatus s txn_idx (ExecutionStatus.Aborting incarnation))
    ∧ (s.txnExecStatus txn_idx ≠ ExecutionStatus.Executed incarnation →
        (try_abort s txn_idx incarnation).2 = s)
    ∧ ((applyTrace P s ops).violation = false →
        abortTrueCount P txn_idx incarnation s ops ≤ 1) := by
  refine ⟨try_abort_true_iff s txn_idx incarnation, ?_, ?_, ?_⟩
  · intro h
    simp [try_abort, h]
  · intro h
    simp [try_abort, h]
  · intro hv
    exact abortTrueCount_le_one P txn_idx incarnation ops s hv

/-- Witness for C4: on a state where transaction 0 is Executed(3), the first
try_abort(0, 3) succeeds and a trace with two such calls counts at most one
success. -/
theorem try_abort_spec_witness :
    (try_abort sExec 0 3).1 = true
    ∧ abortTrueCount Pex 0 3 sExec
        [SchedOp.tryAbortCall 0 3, SchedOp.tryAbortCall 0 3] ≤ 1 :=
  ⟨((try_abort_spec Pex sExec 0 3 []).1).mpr (by decide),
   (try_abort_spec Pex sExec 0 3
      [SchedOp.tryAbortCall 0 3, SchedOp.tryAbortCall 0 3]).2.2.2 (by decide)⟩
